import Mathlib

/-!
Verification development for the `test-bleve` suggestion service.

The Go source (`src/main.go`, with two observed variants under `src/unnamed/`)
is shallowly embedded below.  Go strings are modelled as Lean `String`
(Go's byte-lexicographic comparison of valid UTF-8 strings coincides with
codepoint-lexicographic comparison, which `strLess` implements on the rune
list); Go `int` is modelled as `Int`; Go maps are modelled as association
lists with first-match lookup and replace-or-append store (`sync.Map.Store`
semantics); the bleve Search Index collaborator is abstracted as a function
from (partition key, query text) to a fallible hit map, exactly the shape
`findByName` exposes to its callers.
-/

namespace TestBleve

/-- Go string comparison `a < b` on the rune lists (byte order on valid UTF-8
equals codepoint order). -/
def strLess : List Char → List Char → Bool
  | [], [] => false
  | [], _ :: _ => true
  | _ :: _, [] => false
  | a :: as, b :: bs =>
    if a.toNat < b.toNat then true
    else if b.toNat < a.toNat then false
    else strLess as bs

/-- ASCII whitespace test; the inputs handled by the claims are ASCII, so the
ASCII subset of Go's `unicode.IsSpace` suffices. -/
def isSpaceGo (c : Char) : Bool :=
  c == ' ' || c == '\t' || c == '\n' || c == '\r'

/-- Go `strings.TrimSpace`. -/
def trimSpace (s : String) : String :=
  ⟨((s.data.dropWhile isSpaceGo).reverse.dropWhile isSpaceGo).reverse⟩

/-- Go `strings.Replace(s, " ", "", -1)`: remove every space character. -/
def remSpaces (s : String) : String :=
  ⟨s.data.filter (fun c => c != ' ')⟩

/-- Go `strings.Split(s, "|")[0]`: the text before the first `|`
(the whole string when there is none). -/
def splitBarHead (s : String) : String :=
  ⟨s.data.takeWhile (fun c => c != '|')⟩

/-- Go `strings.Replace(s, "|", " ", 1)`: replace the first `|` by a space. -/
def replaceBarOnceAux : List Char → List Char
  | [] => []
  | c :: rest => if c == '|' then ' ' :: rest else c :: replaceBarOnceAux rest

/-- String form of `replaceBarOnceAux`. -/
def replaceBarOnce (s : String) : String :=
  ⟨replaceBarOnceAux s.data⟩

/-- Go `strconv.Atoi` with its error discarded (`v, _ := strconv.Atoi(s)`):
optional sign followed by decimal digits; any malformed input yields 0.
(The 64-bit range clamp is not modelled; the ingested identifiers are small.) -/
def goAtoi (s : String) : Int :=
  match s.data with
  | [] => 0
  | c :: rest =>
    let signed : Bool × List Char :=
      if c == '-' then (true, rest)
      else if c == '+' then (false, rest)
      else (false, c :: rest)
    if signed.2 = [] then 0
    else if signed.2.all (fun d => d.isDigit) then
      let n : Nat := signed.2.foldl (fun a d => a * 10 + (d.toNat - 48)) 0
      if signed.1 then -(n : Int) else (n : Int)
    else 0

/-- First-match association-list lookup (Go map read / `sync.Map.Load`). -/
def lookupAssoc {κ α : Type} [BEq κ] : List (κ × α) → κ → Option α
  | [], _ => none
  | (k', v) :: rest, k => if k' == k then some v else lookupAssoc rest k

/-- Replace-or-append association-list store (Go map write / `sync.Map.Store`). -/
def upsertAssoc {κ α : Type} [BEq κ] : List (κ × α) → κ → α → List (κ × α)
  | [], k, v => [(k, v)]
  | (k', v') :: rest, k, v =>
    if k' == k then (k, v) :: rest else (k', v') :: upsertAssoc rest k v

/-- `type baseDoc struct` from `src/main.go`. -/
structure baseDoc where
  ID : Int
  Kind : String
  Code : String
  Name : String
  Info : Int
  Sale : Int
deriving DecidableEq, Repr

/-- The comparator closure passed to `sort.Slice` inside `sortMagic`
(`src/main.go:550-562`): `Info` descending, then `Sale` descending, then
`Name` ascending. -/
def docLess (a b : baseDoc) : Bool :=
  if a.Info > b.Info then true
  else if a.Info < b.Info then false
  else if a.Sale > b.Sale then true
  else if a.Sale < b.Sale then false
  else strLess a.Name.data b.Name.data

/-- The non-strict order established by `sort.Slice` with `docLess`:
`a` may precede `b` exactly when `docLess b a = false`. -/
def docRel (a b : baseDoc) : Prop := docLess b a = false

instance : DecidableRel docRel := fun a b =>
  inferInstanceAs (Decidable (docLess b a = false))

/-- The ranking order as the spec states it: `ImportanceFlag` (`Info`)
descending, then `SaleCount` (`Sale`) descending, then `Name` ascending. -/
def rankLE (a b : baseDoc) : Prop :=
  b.Info < a.Info ∨
  (a.Info = b.Info ∧ b.Sale < a.Sale) ∨
  (a.Info = b.Info ∧ a.Sale = b.Sale ∧ strLess b.Name.data a.Name.data = false)

/-- The popularity table read `indexDB.sales[d.ID]`: a Go map read returning
0 for a missing key. -/
def salesGet (sales : List (Int × Int)) (i : Int) : Int :=
  (lookupAssoc sales i).getD 0

/-- The resolve-and-stamp loop of `sortMagic` (`src/main.go:535-543`): each
key is looked up in the vault; misses are skipped; each hit's `Sale` field is
overwritten from the popularity table before sorting.  (In Go the overwrite
mutates the shared record; only the stamped value is observable inside
`sortMagic`, which is what this captures.) -/
def stampDocs (vlt : List (String × baseDoc)) (sales : List (Int × Int))
    (keys : List String) : List baseDoc :=
  keys.filterMap (fun k =>
    (lookupAssoc vlt k).map (fun d => { d with Sale := salesGet sales d.ID }))

/-- `sortMagic` (`src/main.go:525-572`).  The first argument is the result of
`indexDB.getVault(key)` (`none` models the error return).  Go's `sort.Slice`
is an unspecified comparison sort; it is modelled by `List.insertionSort`
over `docRel`, which realises exactly the guarantees `sort.Slice` gives
(a permutation of the input, pairwise ordered so that no later element is
`docLess` an earlier one); the order of fully-tied records is unspecified in
Go and is a modelling choice here. -/
def sortMagic (vlt : Option (List (String × baseDoc))) (sales : List (Int × Int))
    (keys : List String) : List String :=
  if keys.length < 2 then keys
  else
    match vlt with
    | none => keys
    | some v =>
      let tmp := stampDocs v sales keys
      if tmp.length = 0 then keys
      else (List.insertionSort docRel tmp).map (fun d => toString d.ID)

/-! ## Transliteration Engine (`mapKB`, `convString`) -/

/-- The `"en"` row of `var mapKB` (`src/main.go:864`). -/
def enKB : List Char :=
  "qwertyuiop[]\\asdfghjkl;\x27zxcvbnm,./\x60QWERTYUIOP\x7b\x7d|ASDFGHJKL:\"ZXCVBNM<>?~!@#$%^&*()_+".data

/-- The `"ru"` row of `var mapKB` (`src/main.go:865`). -/
def ruKB : List Char :=
  "йцукенгшщзхъ\\фывапролджэячсмитьбю.ёЙЦУКЕНГШЩЗХЪ/ФЫВАПРОЛДЖЭЯЧСМИТЬБЮ,Ё!\"№;%:?*()_+".data

/-- The `"uk"` row of `var mapKB` (`src/main.go:866`). -/
def ukKB : List Char :=
  "йцукенгшщзхї\\фівапролджєячсмитьбю.\x27ЙЦУКЕНГШЩЗХЇ/ФІВАПРОЛДЖЄЯЧСМИТЬБЮ,₴!\"№;%:?*()_+".data

/-- `mapKB` as a partial map; `none` models the `nil` slice Go returns for an
unknown layout. -/
def mapKB : String → Option (List Char)
  | "en" => some enKB
  | "ru" => some ruKB
  | "uk" => some ukKB
  | _ => none

/-- The inner loop of `convString` (`src/main.go:878-886`): scan the source
table for the first position holding `c` and emit the destination table's
character at that position, or `c` itself when absent.  Walking the two
tables in lockstep is the same scan; the tables are proved equal-length
below, so the case where the destination table runs out (a Go panic) is
unreachable. -/
def lookupKB : List Char → List Char → Char → Char
  | a :: as, b :: bs, c => if a == c then b else lookupKB as bs c
  | _, _, c => c

/-- `convString` (`src/main.go:869-888`). -/
def convString (s fromL toL : String) : String :=
  match mapKB fromL, mapKB toL with
  | some l1, some l2 => ⟨s.data.map (lookupKB l1 l2)⟩
  | _, _ => s

/-! ## Ingestion Coordinator (`uploadSugg`, `uploadSugg2`) -/

/-- One fresh category-locale partition being built during an upload: the
sequence of `bleve` `Index(key, text)` calls and the companion vault
(`sync.Map`). -/
structure Partition where
  idx : List (String × String) := []
  vlt : List (String × baseDoc) := []
deriving DecidableEq, Repr

/-- `idx.Index(key, text)` followed by `vlt.Store(key, doc)` for one
partition. -/
def indexAndStore (p : Partition) (key text : String) (d : baseDoc) : Partition :=
  { idx := p.idx ++ [(key, text)], vlt := upsertAssoc p.vlt key d }

/-- The ten freshly allocated partitions of one upload generation
(`src/main.go:115-175`). -/
structure GenB where
  atcRU : Partition := {}
  infRU : Partition := {}
  innRU : Partition := {}
  actRU : Partition := {}
  orgRU : Partition := {}
  atcUA : Partition := {}
  infUA : Partition := {}
  innUA : Partition := {}
  actUA : Partition := {}
  orgUA : Partition := {}
deriving DecidableEq, Repr

/-- The composite key computed for a row in `uploadSugg`
(`src/main.go:203-214`): starts as the ID field; when the row's category is
`atc`, the normalized code of the locale-1 name and then the normalized code
of the locale-2 name are each appended (both `if` blocks run, since both
docs carry the same `Kind`). -/
def rowKeySugg (row : List String) : String :=
  let kind0 := row.getD 0 ""
  let key0 := row.getD 1 ""
  let key1 :=
    if kind0 == "atc" then
      key0 ++ "|" ++ remSpaces (trimSpace (splitBarHead (row.getD 2 "")))
    else key0
  if kind0 == "atc" then
    key1 ++ "|" ++ remSpaces (trimSpace (splitBarHead (row.getD 3 "")))
  else key1

/-- The body of the `uploadSugg` ingestion loop for one validated row
(`src/main.go:189-254`): build the two locale docs, normalize the legacy
`info` category tag to `inf`, and index/store both docs under the composite
key in the category's two partitions.  `row.getD` models Go slice indexing;
the loop has already checked `row.length ≥ 6`. -/
def applyRow (row : List String) (g : GenB) : GenB :=
  let kind0 := row.getD 0 ""
  let rid := goAtoi (row.getD 1 "")
  let nameRU := row.getD 2 ""
  let nameUA := row.getD 3 ""
  let info := goAtoi (row.getD 4 "")
  let sale := goAtoi (row.getD 5 "")
  let codeRU := if kind0 == "atc" then trimSpace (splitBarHead nameRU) else ""
  let codeUA := if kind0 == "atc" then trimSpace (splitBarHead nameUA) else ""
  let key := rowKeySugg row
  let kind := if kind0 == "info" then "inf" else kind0
  let docRU : baseDoc :=
    { ID := rid, Kind := kind, Code := codeRU, Name := nameRU, Info := info, Sale := sale }
  let docUA : baseDoc :=
    { ID := rid, Kind := kind, Code := codeUA, Name := nameUA, Info := info, Sale := sale }
  if kind == "atc" then
    { g with atcRU := indexAndStore g.atcRU key nameRU docRU,
             atcUA := indexAndStore g.atcUA key nameUA docUA }
  else if kind == "inf" then
    { g with infRU := indexAndStore g.infRU key nameRU docRU,
             infUA := indexAndStore g.infUA key nameUA docUA }
  else if kind == "inn" then
    { g with innRU := indexAndStore g.innRU key nameRU docRU,
             innUA := indexAndStore g.innUA key nameUA docUA }
  else if kind == "act" then
    { g with actRU := indexAndStore g.actRU key nameRU docRU,
             actUA := indexAndStore g.actUA key nameUA docUA }
  else if kind == "org" then
    { g with orgRU := indexAndStore g.orgRU key nameRU docRU,
             orgUA := indexAndStore g.orgUA key nameUA docUA }
  else g

/-- The `for i := range rec` loop of `uploadSugg` (`src/main.go:177-255`):
row 0 is skipped as the CSV header; a data row with fewer than 6 fields
aborts with the Go error text; otherwise the row is ingested into the fresh
generation. -/
def uploadSuggLoop : Nat → List (List String) → GenB → Except String GenB
  | _, [], g => .ok g
  | i, row :: rest, g =>
    if i == 0 then uploadSuggLoop (i + 1) rest g
    else if row.length < 6 then
      .error ("invalid csv: got " ++ toString row.length ++ ", want 6")
    else uploadSuggLoop (i + 1) rest (applyRow row g)

/-- `var indexDB = &index{...}`: the process-wide registry
(`type index struct`, `src/main.go:792-797`). -/
structure index where
  store : List (String × List (String × String)) := []
  vault : List (String × List (String × baseDoc)) := []
  sales : List (Int × Int) := []
deriving DecidableEq, Repr

/-- The ten registry keys in the order `uploadSugg` installs them
(`src/main.go:257-267`). -/
def genIdxList (g : GenB) : List (String × List (String × String)) :=
  [("atc-ru", g.atcRU.idx), ("inf-ru", g.infRU.idx), ("inn-ru", g.innRU.idx),
   ("act-ru", g.actRU.idx), ("org-ru", g.orgRU.idx),
   ("atc-ua", g.atcUA.idx), ("inf-ua", g.infUA.idx), ("inn-ua", g.innUA.idx),
   ("act-ua", g.actUA.idx), ("org-ua", g.orgUA.idx)]

/-- The ten vault installs of `uploadSugg` (`src/main.go:269-279`). -/
def genVltList (g : GenB) : List (String × List (String × baseDoc)) :=
  [("atc-ru", g.atcRU.vlt), ("inf-ru", g.infRU.vlt), ("inn-ru", g.innRU.vlt),
   ("act-ru", g.actRU.vlt), ("org-ru", g.orgRU.vlt),
   ("atc-ua", g.atcUA.vlt), ("inf-ua", g.infUA.vlt), ("inn-ua", g.innUA.vlt),
   ("act-ua", g.actUA.vlt), ("org-ua", g.orgUA.vlt)]

/-- The install phase of `uploadSugg`: ten `setIndex` calls then ten
`setVault` calls, each a delete-then-insert on the registry map
(`src/main.go:257-279`, `829-861`). -/
def installGen (g : GenB) (db : index) : index :=
  let db1 := (genIdxList g).foldl
    (fun d kv => { d with store := upsertAssoc d.store kv.1 kv.2 }) db
  (genVltList g).foldl
    (fun d kv => { d with vault := upsertAssoc d.vault kv.1 kv.2 }) db1

/-- `uploadSugg` (`src/main.go:96-283`) as a registry transition: the parsed
CSV rows are ingested into a fresh generation; on a malformed row the
handler returns the error and the registry is untouched; on success the ten
partitions are installed and the response reports `len(rec) - 1`. -/
def uploadSugg (rows : List (List String)) (db : index) : index × Except String Int :=
  match uploadSuggLoop 0 rows {} with
  | .error e => (db, .error e)
  | .ok g => (installGen g db, .ok ((rows.length : Int) - 1))

/-- The `for i := range rec` loop of `uploadSugg2` (`src/main.go:304-321`):
row 0 is skipped as the CSV header; a data row with fewer than 2 fields
aborts; otherwise `indexDB.sales[key] = val`. -/
def uploadSugg2Loop : Nat → List (List String) → List (Int × Int) →
    Except String (List (Int × Int))
  | _, [], s => .ok s
  | i, row :: rest, s =>
    if i == 0 then uploadSugg2Loop (i + 1) rest s
    else if row.length < 2 then
      .error ("invalid csv: got " ++ toString row.length ++ ", want 2")
    else uploadSugg2Loop (i + 1) rest
      (upsertAssoc s (goAtoi (row.getD 0 "")) (goAtoi (row.getD 1 "")))

/-- `uploadSugg2` (`src/main.go:285-325`) as a popularity-table transition;
the success response reports `len(rec) - 1` and the table size. -/
def uploadSugg2 (rows : List (List String)) (sales : List (Int × Int)) :
    List (Int × Int) × Except String (Int × Nat) :=
  match uploadSugg2Loop 0 rows sales with
  | .error e => (sales, .error e)
  | .ok s2 => (s2, .ok ((rows.length : Int) - 1, s2.length))

/-! ## Query Resolver (`selectSuggestion`, search phase) -/

/-- The hit map `findByName` returns: indexed display text (headword) to the
composite keys of its hits (`map[string][]string`). -/
abbrev HitMap := List (String × List String)

/-- The Search Index collaborator as `selectSuggestion` consumes it: a
`findByName(key, name)` call, keyed by registry partition and query text. -/
abbrev Find := String → String → Except String HitMap

/-- The chronological record of `findByName` calls a resolution issues,
as (partition key, query text) pairs.  This instruments the embedding so
that "how often was partition `k` searched, and with what text" is
observable. -/
abbrev QLog := List (String × String)

/-- One `findByName` call with its result and the query it logged. -/
def runFind (find : Find) (k t : String) (log : QLog) :
    Except String (HitMap × QLog) :=
  match find k t with
  | .ok m => .ok (m, log ++ [(k, t)])
  | .error e => .error e

/-- One `if len(m) == 0 { m, err = findByName(idx, convName) }` fallback
block (`src/main.go:404-438`). -/
def fallbackStep (find : Find) (k conv : String) (m : HitMap) (log : QLog) :
    Except String (HitMap × QLog) :=
  if m.isEmpty then runFind find k conv log else .ok (m, log)

/-- The `atc` partition key for the request locale (`src/main.go:361-372`). -/
def idxATCof (ua : Bool) : String := if ua then "atc-ua" else "atc-ru"

/-- The `inf` partition key for the request locale. -/
def idxINFof (ua : Bool) : String := if ua then "inf-ua" else "inf-ru"

/-- The `inn` partition key for the request locale. -/
def idxINNof (ua : Bool) : String := if ua then "inn-ua" else "inn-ru"

/-- The `act` partition key for the request locale. -/
def idxACTof (ua : Bool) : String := if ua then "act-ua" else "act-ru"

/-- The `org` partition key for the request locale. -/
def idxORGof (ua : Bool) : String := if ua then "org-ua" else "org-ru"

/-- `convName` (`src/main.go:400-403`): the query transliterated from the
Latin layout to the request locale's layout. -/
def convNameOf (ua : Bool) (name : String) : String :=
  if ua then convString name "en" "uk" else convString name "en" "ru"

/-- The five direct maps a resolution ends with, one per category. -/
structure catMaps where
  mATC : HitMap
  mINF : HitMap
  mINN : HitMap
  mACT : HitMap
  mORG : HitMap
deriving DecidableEq, Repr

/-- The search phase of `selectSuggestion` (`src/main.go:361-438`): five
direct `findByName` calls in category order, each aborting the whole
resolution on error, then per category one transliteration retry exactly
when that category's direct map is empty. -/
def selectSuggestionSearch (find : Find) (ua : Bool) (name : String) :
    Except String (catMaps × QLog) :=
  match runFind find (idxATCof ua) name [] with
  | .error e => .error e
  | .ok (mATC, l1) =>
  match runFind find (idxINFof ua) name l1 with
  | .error e => .error e
  | .ok (mINF, l2) =>
  match runFind find (idxINNof ua) name l2 with
  | .error e => .error e
  | .ok (mINN, l3) =>
  match runFind find (idxACTof ua) name l3 with
  | .error e => .error e
  | .ok (mACT, l4) =>
  match runFind find (idxORGof ua) name l4 with
  | .error e => .error e
  | .ok (mORG, l5) =>
  match fallbackStep find (idxATCof ua) (convNameOf ua name) mATC l5 with
  | .error e => .error e
  | .ok (mATC2, l6) =>
  match fallbackStep find (idxINFof ua) (convNameOf ua name) mINF l6 with
  | .error e => .error e
  | .ok (mINF2, l7) =>
  match fallbackStep find (idxINNof ua) (convNameOf ua name) mINN l7 with
  | .error e => .error e
  | .ok (mINN2, l8) =>
  match fallbackStep find (idxACTof ua) (convNameOf ua name) mACT l8 with
  | .error e => .error e
  | .ok (mACT2, l9) =>
  match fallbackStep find (idxORGof ua) (convNameOf ua name) mORG l9 with
  | .error e => .error e
  | .ok (mORG2, l10) =>
  .ok (⟨mATC2, mINF2, mINN2, mACT2, mORG2⟩, l10)

/-- The length validation of `selectSuggestion` (`src/main.go:350-359`):
`n := len([]rune(v.Name))` — note: no trimming — rejected when `n <= 2` or
`n > max`. -/
def validateLen (maxN : Nat) (name : String) : Option String :=
  let n := name.data.length
  if n ≤ 2 then some ("too few characters: " ++ toString n)
  else if maxN < n then some ("too many characters: " ++ toString n)
  else none

/-- `selectSuggestion` up to and including its search phase
(`src/main.go:327-438`): validate the raw rune count against 128, then
resolve. -/
def selectSuggestion (find : Find) (ua : Bool) (name : String) :
    Except String (catMaps × QLog) :=
  match validateLen 128 name with
  | some e => .error e
  | none => selectSuggestionSearch find ua name

/-- The `src/unnamed/part_000` variant of `selectSuggestion`
(lines 344-455 there): identical control flow, but the phrase-search mode
with the 1024-character bound. -/
def selectSuggestionV0 (find : Find) (ua : Bool) (name : String) :
    Except String (catMaps × QLog) :=
  match validateLen 1024 name with
  | some e => .error e
  | none => selectSuggestionSearch find ua name

/-! ## Ranking Engine (response building, `src/main.go:473-512`) -/

/-- `type sugg struct`. -/
structure sugg where
  Name : String := ""
  Keys : List String := []
deriving DecidableEq, Repr

/-- `type result struct` (the fields the build phase populates). -/
structure result where
  Find : String := ""
  SuggINF : List sugg := []
  SuggINN : List sugg := []
  SuggACT : List sugg := []
  SuggORG : List sugg := []
  SuggATC : List sugg := []
deriving DecidableEq, Repr

/-- Go map read `m[k]` on a hit map: `nil` (empty) for a missing headword. -/
def lookupHM (m : HitMap) (k : String) : List String :=
  (lookupAssoc m k).getD []

/-- The response-building phase of `selectSuggestion`
(`src/main.go:473-512`), taking the collated headword lists and the hit
maps.  Per the source: each `atc` group's keys are first stripped to the
text before `|` in place and then passed to `sortMagic` with the `inn`
registry key (line 482 names `idxINN`); the `inf` category pools every
headword's keys into the one group named `"-"`; the other categories build
one group per headword in collation order. -/
def buildResult (db : index) (ua : Bool) (name : String)
    (sATC sINF sINN sACT sORG : List String)
    (mATC mINF mINN mACT mORG : HitMap) : result :=
  let suggATC := sATC.map (fun nm =>
    let keys := (lookupHM mATC nm).map splitBarHead
    sugg.mk (trimSpace (replaceBarOnce nm))
      (sortMagic (lookupAssoc db.vault (idxINNof ua)) db.sales keys))
  let suggINF := [sugg.mk "-"
    (sortMagic (lookupAssoc db.vault (idxINFof ua)) db.sales
      (sINF.foldl (fun acc nm => acc ++ lookupHM mINF nm) []))]
  let suggINN := sINN.map (fun nm =>
    sugg.mk nm
      (sortMagic (lookupAssoc db.vault (idxINNof ua)) db.sales (lookupHM mINN nm)))
  let suggACT := sACT.map (fun nm =>
    sugg.mk nm
      (sortMagic (lookupAssoc db.vault (idxACTof ua)) db.sales (lookupHM mACT nm)))
  let suggORG := sORG.map (fun nm =>
    sugg.mk nm
      (sortMagic (lookupAssoc db.vault (idxORGof ua)) db.sales (lookupHM mORG nm)))
  { Find := name, SuggATC := suggATC, SuggINF := suggINF, SuggINN := suggINN,
    SuggACT := suggACT, SuggORG := suggORG }

/-! ## Order lemmas for the ranking comparator -/

/-- `strLess` is asymmetric. -/
theorem strLess_asymm : ∀ {a b : List Char}, strLess a b = true → strLess b a = false
  | [], [], h => Bool.noConfusion h
  | [], _ :: _, _ => rfl
  | _ :: _, [], h => Bool.noConfusion h
  | _ :: _, _ :: _, h => by
    simp only [strLess] at h ⊢
    split_ifs at h ⊢ <;> first | rfl | omega | exact strLess_asymm h

/-- The negation of `strLess` is transitive. -/
theorem strLess_le_trans : ∀ {a b c : List Char},
    strLess b a = false → strLess c b = false → strLess c a = false
  | [], [], [], _, _ => rfl
  | _ :: _, [], [], h1, _ => h1
  | [], _ :: _, [], _, h2 => Bool.noConfusion h2
  | _ :: _, _ :: _, [], _, h2 => Bool.noConfusion h2
  | [], [], _ :: _, _, h2 => h2
  | [], _ :: _, _ :: _, _, _ => rfl
  | _ :: _, [], _ :: _, h1, _ => Bool.noConfusion h1
  | _ :: _, _ :: _, _ :: _, h1, h2 => by
    simp only [strLess] at h1 h2 ⊢
    split_ifs at h1 h2 ⊢ <;> first | rfl | omega | exact strLess_le_trans h1 h2

/-- The order `sort.Slice` establishes with `docLess` is exactly the spec's
ranking order. -/
theorem docRel_iff {a b : baseDoc} : docRel a b ↔ rankLE a b := by
  unfold docRel docLess rankLE
  split_ifs with h1 h2 h3 h4 <;>
    constructor <;> intro h <;>
    first
      | omega
      | (rcases h with h | ⟨e1, h⟩ | ⟨e1, e2, h⟩ <;> first | omega | exact h)
      | exact Or.inr (Or.inr ⟨by omega, by omega, h⟩)
      | simp_all

/-- `rankLE` is total. -/
theorem rankLE_total (a b : baseDoc) : rankLE a b ∨ rankLE b a := by
  rcases lt_trichotomy a.Info b.Info with hI | hI | hI
  · exact Or.inr (Or.inl hI)
  · rcases lt_trichotomy a.Sale b.Sale with hS | hS | hS
    · exact Or.inr (Or.inr (Or.inl ⟨hI.symm, hS⟩))
    · by_cases hN : strLess b.Name.data a.Name.data = false
      · exact Or.inl (Or.inr (Or.inr ⟨hI, hS, hN⟩))
      · refine Or.inr (Or.inr (Or.inr ⟨hI.symm, hS.symm, ?_⟩))
        exact strLess_asymm (Bool.of_not_eq_false hN)
    · exact Or.inl (Or.inr (Or.inl ⟨hI, hS⟩))
  · exact Or.inl (Or.inl hI)

/-- `rankLE` is transitive. -/
theorem rankLE_trans {a b c : baseDoc} (hab : rankLE a b) (hbc : rankLE b c) :
    rankLE a c := by
  rcases hab with h1 | ⟨e1, h1⟩ | ⟨e1, f1, h1⟩ <;>
    rcases hbc with h2 | ⟨e2, h2⟩ | ⟨e2, f2, h2⟩
  · exact Or.inl (by omega)
  · exact Or.inl (by omega)
  · exact Or.inl (by omega)
  · exact Or.inl (by omega)
  · exact Or.inr (Or.inl ⟨by omega, by omega⟩)
  · exact Or.inr (Or.inl ⟨by omega, by omega⟩)
  · exact Or.inl (by omega)
  · exact Or.inr (Or.inl ⟨by omega, by omega⟩)
  · exact Or.inr (Or.inr ⟨by omega, by omega, strLess_le_trans h1 h2⟩)

instance : IsTotal baseDoc docRel :=
  ⟨fun a b => by
    rcases rankLE_total a b with h | h
    · exact Or.inl (docRel_iff.mpr h)
    · exact Or.inr (docRel_iff.mpr h)⟩

instance : IsTrans baseDoc docRel :=
  ⟨fun _ _ _ hab hbc =>
    docRel_iff.mpr (rankLE_trans (docRel_iff.mp hab) (docRel_iff.mp hbc))⟩

/-! ## Claims about the Ranking Engine (`sortMagic`) -/

/-- Claim C1: whenever at least two of a group's member keys resolve in the
vault, `sortMagic` emits the resolved records' IDs ordered by `Info`
(`ImportanceFlag`) descending, then `Sale` (`SaleCount`, stamped from the
popularity table) descending, then `Name` ascending — so two records with
equal `Info` and `Sale` appear with the lexicographically smaller `Name`
first. -/
theorem sortMagic_orders_by_info_sale_name
    (vlt : List (String × baseDoc)) (sales : List (Int × Int)) (keys : List String)
    (h : 2 ≤ (stampDocs vlt sales keys).length) :
    ∃ ranked : List baseDoc,
      sortMagic (some vlt) sales keys = ranked.map (fun d => toString d.ID) ∧
      ranked.Perm (stampDocs vlt sales keys) ∧
      ranked.Pairwise rankLE := by
  refine ⟨List.insertionSort docRel (stampDocs vlt sales keys), ?_, ?_, ?_⟩
  · have hlen : (stampDocs vlt sales keys).length ≤ keys.length :=
      List.length_filterMap_le _ _
    have hk : ¬ keys.length < 2 := by omega
    have ht : ¬ (stampDocs vlt sales keys).length = 0 := by omega
    simp only [sortMagic, if_neg hk, if_neg ht]
  · exact List.perm_insertionSort docRel _
  · exact (List.sorted_insertionSort docRel _).imp (fun hab => docRel_iff.mp hab)

/-- Witness for C1 at a concrete two-record group. -/
theorem sortMagic_orders_witness :
    2 ≤ (stampDocs [("a", ⟨1, "inn", "", "bbb", 2, 0⟩), ("b", ⟨2, "inn", "", "aaa", 2, 0⟩)]
          [] ["a", "b"]).length ∧
    ∃ ranked : List baseDoc,
      sortMagic (some [("a", ⟨1, "inn", "", "bbb", 2, 0⟩), ("b", ⟨2, "inn", "", "aaa", 2, 0⟩)])
          [] ["a", "b"] = ranked.map (fun d => toString d.ID) ∧
      ranked.Perm (stampDocs [("a", ⟨1, "inn", "", "bbb", 2, 0⟩), ("b", ⟨2, "inn", "", "aaa", 2, 0⟩)]
          [] ["a", "b"]) ∧
      ranked.Pairwise rankLE :=
  ⟨by decide, sortMagic_orders_by_info_sale_name _ _ _ (by decide)⟩

/-- Claim C2: the `Sale` used for ranking is read from the popularity table
at rank time, keyed by record ID; with the vault (ingested records,
equal `Info`, equal ingest-time `Sale`) and the member keys unchanged, two
different popularity tables produce the two opposite member orders. -/
theorem sortMagic_sale_rank_time_flip :
    ∃ (vlt : List (String × baseDoc)) (s1 s2 : List (Int × Int)) (keys : List String),
      (∀ p ∈ vlt, (p : String × baseDoc).2.Info = 0 ∧ p.2.Sale = 0) ∧
      sortMagic (some vlt) s1 keys = ["1", "2"] ∧
      sortMagic (some vlt) s2 keys = ["2", "1"] :=
  ⟨[("k1", ⟨1, "inn", "", "b", 0, 0⟩), ("k2", ⟨2, "inn", "", "a", 0, 0⟩)],
   [(1, 10)], [(2, 10)], ["k1", "k2"], by decide, by decide, by decide⟩

/-- Counterexample to claim C6 as stated: with an existing but empty vault,
the key `"a"` has no vault entry, yet it appears in the group's output —
when no key resolves, `sortMagic` returns the raw keys unchanged instead of
dropping the unresolved ones. -/
theorem sortMagic_unresolved_kept_cex :
    "a" ∈ sortMagic (some []) [] ["a", "b"] := by decide

/-- Claim C6 as amended: provided the group has at least two member keys and
at least one key resolves in the vault, every key without a vault entry is
dropped — the output consists of exactly the resolved records' IDs (one per
resolving key). -/
theorem sortMagic_drops_unresolved
    (vlt : List (String × baseDoc)) (sales : List (Int × Int)) (keys : List String)
    (h2 : 2 ≤ keys.length) (hne : stampDocs vlt sales keys ≠ []) :
    (sortMagic (some vlt) sales keys).length = (stampDocs vlt sales keys).length ∧
    (∀ s ∈ sortMagic (some vlt) sales keys,
      ∃ d ∈ stampDocs vlt sales keys, s = toString d.ID) ∧
    (∀ d ∈ stampDocs vlt sales keys,
      toString d.ID ∈ sortMagic (some vlt) sales keys) := by
  have hk : ¬ keys.length < 2 := by omega
  have ht : ¬ (stampDocs vlt sales keys).length = 0 := by
    intro h0
    exact hne (List.length_eq_zero.mp h0)
  have hperm := List.perm_insertionSort docRel (stampDocs vlt sales keys)
  have hout : sortMagic (some vlt) sales keys =
      (List.insertionSort docRel (stampDocs vlt sales keys)).map (fun d => toString d.ID) := by
    simp only [sortMagic, if_neg hk, if_neg ht]
  refine ⟨?_, ?_, ?_⟩
  · rw [hout, List.length_map, hperm.length_eq]
  · intro s hs
    rw [hout] at hs
    obtain ⟨d, hd, rfl⟩ := List.mem_map.mp hs
    exact ⟨d, hperm.mem_iff.mp hd, rfl⟩
  · intro d hd
    rw [hout]
    exact List.mem_map_of_mem _ (hperm.mem_iff.mpr hd)

/-- Witness for the amended C6 at a concrete input: two keys, one resolving. -/
theorem sortMagic_drops_unresolved_witness :
    (2 ≤ (["a", "b"] : List String).length ∧
      stampDocs [("b", ⟨2, "x", "", "n", 0, 0⟩)] [] ["a", "b"] ≠ []) ∧
    ((sortMagic (some [("b", ⟨2, "x", "", "n", 0, 0⟩)]) [] ["a", "b"]).length =
        (stampDocs [("b", ⟨2, "x", "", "n", 0, 0⟩)] [] ["a", "b"]).length ∧
      (∀ s ∈ sortMagic (some [("b", ⟨2, "x", "", "n", 0, 0⟩)]) [] ["a", "b"],
        ∃ d ∈ stampDocs [("b", ⟨2, "x", "", "n", 0, 0⟩)] [] ["a", "b"], s = toString d.ID) ∧
      (∀ d ∈ stampDocs [("b", ⟨2, "x", "", "n", 0, 0⟩)] [] ["a", "b"],
        toString d.ID ∈ sortMagic (some [("b", ⟨2, "x", "", "n", 0, 0⟩)]) [] ["a", "b"])) :=
  ⟨⟨by decide, by decide⟩, sortMagic_drops_unresolved _ _ _ (by decide) (by decide)⟩

/-! ## Claims about the Transliteration Engine (`convString`) -/

/-- A character found in the source table maps into the destination table. -/
theorem lookupKB_mem : ∀ {l1 l2 : List Char}, l1.length = l2.length →
    ∀ {c : Char}, c ∈ l1 → lookupKB l1 l2 c ∈ l2 := by
  intro l1
  induction l1 with
  | nil => intro l2 h c hc; exact absurd hc (List.not_mem_nil c)
  | cons a as ih =>
    intro l2 h c hc
    cases l2 with
    | nil => simp at h
    | cons b bs =>
      simp only [lookupKB]
      by_cases hac : (a == c) = true
      · rw [if_pos hac]; exact List.mem_cons_self b bs
      · rw [if_neg hac]
        have hc' : c ∈ as := by
          rcases List.mem_cons.mp hc with rfl | h'
          · exact absurd (beq_self_eq_true _) hac
          · exact h'
        have hlen : as.length = bs.length := by simpa using h
        exact List.mem_cons_of_mem b (ih hlen hc')

/-- Positional remapping is reversed by the opposite remapping, provided the
destination table has no duplicate characters and the tables have equal
length. -/
theorem lookupKB_roundtrip : ∀ {l1 l2 : List Char}, l1.length = l2.length →
    l2.Nodup → ∀ {c : Char}, c ∈ l1 → lookupKB l2 l1 (lookupKB l1 l2 c) = c := by
  intro l1
  induction l1 with
  | nil => intro l2 hlen hnd c hc; exact absurd hc (List.not_mem_nil c)
  | cons a as ih =>
    intro l2 hlen hnd c hc
    cases l2 with
    | nil => simp at hlen
    | cons b bs =>
      obtain ⟨hb, hndbs⟩ : b ∉ bs ∧ bs.Nodup := List.nodup_cons.mp hnd
      simp only [lookupKB]
      by_cases hac : (a == c) = true
      · rw [if_pos hac]
        simp only [lookupKB, if_pos (beq_self_eq_true b)]
        exact eq_of_beq hac
      · rw [if_neg hac]
        have hc' : c ∈ as := by
          rcases List.mem_cons.mp hc with rfl | h'
          · exact absurd (beq_self_eq_true _) hac
          · exact h'
        have hlen' : as.length = bs.length := by simpa using hlen
        have hmem : lookupKB as bs c ∈ bs := lookupKB_mem hlen' hc'
        have hbne : ¬ (b == lookupKB as bs c) = true := by
          intro hbeq
          exact hb (by rw [eq_of_beq hbeq]; exact hmem)
        simp only [lookupKB, if_neg hbne]
        exact ih hlen' hndbs hc'

/-- Round trip for one named layout pair, given the decidable table facts. -/
theorem convString_pair {A B : String} {tA tB : List Char}
    (hA : mapKB A = some tA) (hB : mapKB B = some tB)
    (hlen : tA.length = tB.length) (hnd : tB.Nodup)
    (s : String) (hs : ∀ c ∈ s.data, c ∈ tA) :
    convString (convString s A B) B A = s := by
  have h1 : convString s A B = ⟨s.data.map (lookupKB tA tB)⟩ := by
    simp [convString, hA, hB]
  have h2 : convString (⟨s.data.map (lookupKB tA tB)⟩ : String) B A =
      ⟨(s.data.map (lookupKB tA tB)).map (lookupKB tB tA)⟩ := by
    simp [convString, hA, hB]
  rw [h1, h2, List.map_map]
  have h3 : s.data.map (lookupKB tB tA ∘ lookupKB tA tB) = s.data := by
    have := List.map_congr_left (l := s.data)
      (f := lookupKB tB tA ∘ lookupKB tA tB) (g := id)
      (fun c hc => lookupKB_roundtrip hlen hnd (hs c hc))
    rw [this, List.map_id]
  rw [h3]

/-- Claim C3: for every layout pair among `en`, `ru`, `uk` and every string
drawn from the source layout's table, transliterating there and back is the
identity: `convString (convString s A B) B A = s`. -/
theorem convString_roundtrip (A B : String)
    (hA : A = "en" ∨ A = "ru" ∨ A = "uk") (hB : B = "en" ∨ B = "ru" ∨ B = "uk")
    (s : String) (hs : ∀ c ∈ s.data, c ∈ (mapKB A).getD []) :
    convString (convString s A B) B A = s := by
  rcases hA with rfl | rfl | rfl <;> rcases hB with rfl | rfl | rfl
  · exact @convString_pair "en" "en" enKB enKB rfl rfl rfl (by decide) s hs
  · exact @convString_pair "en" "ru" enKB ruKB rfl rfl (by decide) (by decide) s hs
  · exact @convString_pair "en" "uk" enKB ukKB rfl rfl (by decide) (by decide) s hs
  · exact @convString_pair "ru" "en" ruKB enKB rfl rfl (by decide) (by decide) s hs
  · exact @convString_pair "ru" "ru" ruKB ruKB rfl rfl rfl (by decide) s hs
  · exact @convString_pair "ru" "uk" ruKB ukKB rfl rfl (by decide) (by decide) s hs
  · exact @convString_pair "uk" "en" ukKB enKB rfl rfl (by decide) (by decide) s hs
  · exact @convString_pair "uk" "ru" ukKB ruKB rfl rfl (by decide) (by decide) s hs
  · exact @convString_pair "uk" "uk" ukKB ukKB rfl rfl rfl (by decide) s hs

/-- Witness for C3: a wrong-layout Latin string round-trips through the
Russian layout. -/
theorem convString_roundtrip_witness :
    (∀ c ∈ ("ghbdtn" : String).data, c ∈ (mapKB "en").getD []) ∧
    convString (convString "ghbdtn" "en" "ru") "ru" "en" = "ghbdtn" :=
  ⟨by decide,
   convString_roundtrip "en" "ru" (Or.inl rfl) (Or.inr (Or.inl rfl)) "ghbdtn" (by decide)⟩

/-! ## Claims about the Ingestion Coordinator -/

/-- Counterexample to claim C7 as stated: for the `atc` row
`["atc", "7", "A10 | Insulin", "A10 | Imsulin", "5", "0"]` the composite key
actually used is `"7|A10|A10"` — the normalized code is appended twice (once
from each locale's name), not once — and that key, not `ID|code`, is what
the fresh `atc-ru` partition indexes and stores. -/
theorem uploadSugg_atc_key_cex :
    rowKeySugg ["atc", "7", "A10 | Insulin", "A10 | Imsulin", "5", "0"] = "7|A10|A10" ∧
    "7|A10|A10" ≠ "7" ++ "|" ++ remSpaces (trimSpace (splitBarHead "A10 | Insulin")) ∧
    (applyRow ["atc", "7", "A10 | Insulin", "A10 | Imsulin", "5", "0"] {}).atcRU.idx =
      [("7|A10|A10", "A10 | Insulin")] ∧
    lookupAssoc (applyRow ["atc", "7", "A10 | Insulin", "A10 | Imsulin", "5", "0"] {}).atcRU.vlt
      "7|A10|A10" = some ⟨7, "atc", "A10", "A10 | Insulin", 5, 0⟩ :=
  ⟨by decide, by decide, by decide, by decide⟩

/-- Claim C7 as amended: in `uploadSugg` the composite key of an `atc` row is
the row ID followed by `"|"` and the locale-1 name's normalized code,
followed by `"|"` and the locale-2 name's normalized code (each code being
the text before the `|` separator with whitespace stripped and inner spaces
removed); both locales' partitions index the display name and store the
record under exactly that key. -/
theorem uploadSugg_atc_key_two_codes (id nmRU nmUA inf sal : String) (g : GenB) :
    rowKeySugg ["atc", id, nmRU, nmUA, inf, sal] =
      id ++ "|" ++ remSpaces (trimSpace (splitBarHead nmRU))
         ++ "|" ++ remSpaces (trimSpace (splitBarHead nmUA)) ∧
    (applyRow ["atc", id, nmRU, nmUA, inf, sal] g).atcRU.idx =
      g.atcRU.idx ++ [(rowKeySugg ["atc", id, nmRU, nmUA, inf, sal], nmRU)] ∧
    (applyRow ["atc", id, nmRU, nmUA, inf, sal] g).atcRU.vlt =
      upsertAssoc g.atcRU.vlt (rowKeySugg ["atc", id, nmRU, nmUA, inf, sal])
        ⟨goAtoi id, "atc", trimSpace (splitBarHead nmRU), nmRU, goAtoi inf, goAtoi sal⟩ ∧
    (applyRow ["atc", id, nmRU, nmUA, inf, sal] g).atcUA.idx =
      g.atcUA.idx ++ [(rowKeySugg ["atc", id, nmRU, nmUA, inf, sal], nmUA)] ∧
    (applyRow ["atc", id, nmRU, nmUA, inf, sal] g).atcUA.vlt =
      upsertAssoc g.atcUA.vlt (rowKeySugg ["atc", id, nmRU, nmUA, inf, sal])
        ⟨goAtoi id, "atc", trimSpace (splitBarHead nmUA), nmUA, goAtoi inf, goAtoi sal⟩ := by
  refine ⟨?_, ?_, ?_, ?_, ?_⟩ <;> rfl

/-- Data rows (loop index ≥ 1) containing a short row abort the ingestion
loop with an error. -/
theorem uploadSuggLoop_err : ∀ (rows : List (List String)) (i : Nat) (g : GenB),
    i ≠ 0 → (∃ r ∈ rows, r.length < 6) →
    ∃ e, uploadSuggLoop i rows g = .error e := by
  intro rows
  induction rows with
  | nil =>
    intro i g hi h
    rcases h with ⟨r, hr, _⟩
    exact absurd hr (List.not_mem_nil r)
  | cons row rest ih =>
    intro i g hi h
    have hi' : ¬ ((i == 0) = true) := by simp [hi]
    by_cases hlen : row.length < 6
    · refine ⟨"invalid csv: got " ++ toString row.length ++ ", want 6", ?_⟩
      simp only [uploadSuggLoop, if_neg hi', if_pos hlen]
    · rcases h with ⟨r, hr, hr6⟩
      rcases List.mem_cons.mp hr with rfl | hr'
      · exact absurd hr6 hlen
      · obtain ⟨e, he⟩ := ih (i + 1) (applyRow row g) (by omega) ⟨r, hr', hr6⟩
        exact ⟨e, by simp only [uploadSuggLoop, if_neg hi', if_neg hlen]; exact he⟩

/-- Claim C8: a malformed data row (fewer than 6 fields) makes `uploadSugg`
return an error and install nothing — the registry (every index entry and
every vault) is exactly what it was before the upload. -/
theorem uploadSugg_malformed_aborts (rows : List (List String)) (db : index)
    (h : ∃ r ∈ rows.drop 1, r.length < 6) :
    (uploadSugg rows db).1 = db ∧ ∃ e, (uploadSugg rows db).2 = .error e := by
  cases rows with
  | nil =>
    rcases h with ⟨r, hr, _⟩
    simp at hr
  | cons r0 rest =>
    have h1 : uploadSuggLoop 0 (r0 :: rest) {} = uploadSuggLoop 1 rest {} := by
      simp [uploadSuggLoop]
    obtain ⟨e, he⟩ := uploadSuggLoop_err rest 1 {} (by omega) (by simpa using h)
    refine ⟨?_, ⟨e, ?_⟩⟩
    · simp [uploadSugg, h1, he]
    · simp [uploadSugg, h1, he]

/-- Witness for C8: a two-field data row aborts a concrete upload against an
empty registry. -/
theorem uploadSugg_malformed_aborts_witness :
    (∃ r ∈ ([["kind", "id", "name1", "name2", "info", "lang"],
             ["atc", "1"]] : List (List String)).drop 1, r.length < 6) ∧
    ((uploadSugg [["kind", "id", "name1", "name2", "info", "lang"], ["atc", "1"]] {}).1 =
        ({} : index) ∧
      ∃ e, (uploadSugg [["kind", "id", "name1", "name2", "info", "lang"],
             ["atc", "1"]] {}).2 = .error e) :=
  ⟨by decide, uploadSugg_malformed_aborts _ _ (by decide)⟩

/-- Claim C10: on both upload endpoints the first CSV row is skipped as a
header — its content is irrelevant to the resulting registry, popularity
table and response — and a successful response reports the total row count
minus one. -/
theorem upload_header_skip (r0 r0' : List String) (rest : List (List String))
    (db : index) (sales : List (Int × Int)) :
    uploadSugg (r0 :: rest) db = uploadSugg (r0' :: rest) db ∧
    (∀ c : Int, (uploadSugg (r0 :: rest) db).2 = .ok c → c = (rest.length : Int)) ∧
    uploadSugg2 (r0 :: rest) sales = uploadSugg2 (r0' :: rest) sales ∧
    (∀ p : Int × Nat, (uploadSugg2 (r0 :: rest) sales).2 = .ok p →
      p.1 = (rest.length : Int)) := by
  have e1 : uploadSuggLoop 0 (r0 :: rest) {} = uploadSuggLoop 1 rest {} := by
    simp [uploadSuggLoop]
  have e1' : uploadSuggLoop 0 (r0' :: rest) {} = uploadSuggLoop 1 rest {} := by
    simp [uploadSuggLoop]
  have e2 : uploadSugg2Loop 0 (r0 :: rest) sales = uploadSugg2Loop 1 rest sales := by
    simp [uploadSugg2Loop]
  have e2' : uploadSugg2Loop 0 (r0' :: rest) sales = uploadSugg2Loop 1 rest sales := by
    simp [uploadSugg2Loop]
  refine ⟨?_, ?_, ?_, ?_⟩
  · simp only [uploadSugg, e1, e1', List.length_cons]
  · intro c hc
    simp only [uploadSugg, e1] at hc
    cases hloop : uploadSuggLoop 1 rest ({} : GenB) with
    | error e => rw [hloop] at hc; simp at hc
    | ok g =>
      rw [hloop] at hc
      simp only [List.length_cons] at hc
      have := (Except.ok.inj hc)
      push_cast at this ⊢
      omega
  · simp only [uploadSugg2, e2, e2', List.length_cons]
  · intro p hp
    simp only [uploadSugg2, e2] at hp
    cases hloop : uploadSugg2Loop 1 rest sales with
    | error e => rw [hloop] at hp; simp at hp
    | ok s2 =>
      rw [hloop] at hp
      simp only [List.length_cons] at hp
      have h1 : ((rest.length : Int) + 1 - 1, s2.length) = p := Except.ok.inj hp
      have h2 := congrArg Prod.fst h1
      push_cast at h2 ⊢
      omega

/-- Witness for C10: header content is irrelevant on both endpoints, and the
reported count at a concrete one-data-row upload is 1. -/
theorem upload_header_skip_witness :
    uploadSugg [["atc", "9", "N | X", "N | Y", "1", "2"],
        ["inn", "3", "a", "b", "0", "0"]] {} =
      uploadSugg [["zz"], ["inn", "3", "a", "b", "0", "0"]] {} ∧
    uploadSugg2 [["5", "7"], ["1", "5"]] [] = uploadSugg2 [["x"], ["1", "5"]] [] ∧
    (1 : Int) = (([["inn", "3", "a", "b", "0", "0"]] : List (List String)).length : Int) :=
  ⟨(upload_header_skip ["atc", "9", "N | X", "N | Y", "1", "2"] ["zz"]
      [["inn", "3", "a", "b", "0", "0"]] {} []).1,
   (upload_header_skip ["5", "7"] ["x"] [["1", "5"]] {} []).2.2.1,
   (upload_header_skip ["atc", "9", "N | X", "N | Y", "1", "2"] ["zz"]
      [["inn", "3", "a", "b", "0", "0"]] {} []).2.1 1 rfl⟩

/-! ## Claims about query validation (`selectSuggestion` length check) -/

/-- Counterexample to claim C5 as stated: the query `" a   "` has 1 visible
character after trimming (≤ 2), yet `selectSuggestion` does not reject it —
the length check counts the raw, untrimmed runes (5 here) — and the Search
Index is consulted (five direct queries are issued). -/
theorem selectSuggestion_trim_cex :
    (trimSpace " a   ").data.length ≤ 2 ∧
    selectSuggestion (fun _ _ => .ok [("h", ["1"])]) false " a   " =
      .ok (⟨[("h", ["1"])], [("h", ["1"])], [("h", ["1"])], [("h", ["1"])], [("h", ["1"])]⟩,
        [("atc-ru", " a   "), ("inf-ru", " a   "), ("inn-ru", " a   "),
         ("act-ru", " a   "), ("org-ru", " a   ")]) :=
  ⟨by decide, rfl⟩

/-- Claim C5 as amended: text whose raw (untrimmed) rune count is ≤ 2 or
greater than the mode's maximum (128 in `src/main.go`'s conjunctive mode,
1024 in the `src/unnamed/part_000` phrase mode) is always rejected, with a
result that does not depend on the Search Index — no index is consulted. -/
theorem selectSuggestion_length_reject (find find' : Find) (ua ua' : Bool)
    (name : String) :
    ((name.data.length ≤ 2 ∨ 128 < name.data.length) →
      (selectSuggestion find ua name).isOk = false ∧
      selectSuggestion find ua name = selectSuggestion find' ua' name) ∧
    ((name.data.length ≤ 2 ∨ 1024 < name.data.length) →
      (selectSuggestionV0 find ua name).isOk = false ∧
      selectSuggestionV0 find ua name = selectSuggestionV0 find' ua' name) := by
  constructor
  · intro h
    have hv : ∃ e, validateLen 128 name = some e := by
      unfold validateLen
      rcases h with h | h
      · exact ⟨_, by rw [if_pos h]⟩
      · by_cases h2 : name.data.length ≤ 2
        · exact ⟨_, by rw [if_pos h2]⟩
        · exact ⟨_, by rw [if_neg h2, if_pos h]⟩
    obtain ⟨e, he⟩ := hv
    exact ⟨by simp [selectSuggestion, he, Except.isOk, Except.toBool], by simp [selectSuggestion, he]⟩
  · intro h
    have hv : ∃ e, validateLen 1024 name = some e := by
      unfold validateLen
      rcases h with h | h
      · exact ⟨_, by rw [if_pos h]⟩
      · by_cases h2 : name.data.length ≤ 2
        · exact ⟨_, by rw [if_pos h2]⟩
        · exact ⟨_, by rw [if_neg h2, if_pos h]⟩
    obtain ⟨e, he⟩ := hv
    exact ⟨by simp [selectSuggestionV0, he, Except.isOk, Except.toBool], by simp [selectSuggestionV0, he]⟩

/-- Witness for the amended C5: a two-rune query is rejected with a result
independent of the Search Index. -/
theorem selectSuggestion_length_reject_witness :
    (selectSuggestion (fun _ _ => .ok [("h", ["1"])]) false "ab").isOk = false ∧
    selectSuggestion (fun _ _ => .ok [("h", ["1"])]) false "ab" =
      selectSuggestion (fun _ _ => .error "boom") true "ab" :=
  (selectSuggestion_length_reject (fun _ _ => .ok [("h", ["1"])])
    (fun _ _ => .error "boom") false true "ab").1 (by decide)

/-! ## Claim about the Ranking Engine's grouping (`buildResult`) -/

/-- Folding append over a list starting from an accumulator. -/
theorem foldl_append_eq_join {α β : Type} (f : α → List β) :
    ∀ (l : List α) (acc : List β),
      l.foldl (fun a x => a ++ f x) acc = acc ++ (l.map f).flatten
  | [], acc => by simp
  | x :: xs, acc => by
    simp only [List.foldl_cons, List.map_cons, List.flatten]
    rw [foldl_append_eq_join f xs (acc ++ f x)]
    simp [List.append_assoc]

/-- Claim C9: the build phase emits exactly one `inf` suggestion group — the
placeholder-named group pooling every matching headword's member keys,
ranked once — while the `inn`, `act`, `org` categories emit one group per
distinct headword, and `atc` emits one group per distinct headword with its
keys first stripped to the text before `|` and (per the source) ranked
against the `inn` vault key. -/
theorem buildResult_inf_single_group (db : index) (ua : Bool) (name : String)
    (sATC sINF sINN sACT sORG : List String)
    (mATC mINF mINN mACT mORG : HitMap) :
    (buildResult db ua name sATC sINF sINN sACT sORG mATC mINF mINN mACT mORG).SuggINF.length = 1 ∧
    (buildResult db ua name sATC sINF sINN sACT sORG mATC mINF mINN mACT mORG).SuggINF =
      [sugg.mk "-" (sortMagic (lookupAssoc db.vault (idxINFof ua)) db.sales
        ((sINF.map (lookupHM mINF)).flatten))] ∧
    (buildResult db ua name sATC sINF sINN sACT sORG mATC mINF mINN mACT mORG).SuggINN =
      sINN.map (fun nm => sugg.mk nm
        (sortMagic (lookupAssoc db.vault (idxINNof ua)) db.sales (lookupHM mINN nm))) ∧
    (buildResult db ua name sATC sINF sINN sACT sORG mATC mINF mINN mACT mORG).SuggACT =
      sACT.map (fun nm => sugg.mk nm
        (sortMagic (lookupAssoc db.vault (idxACTof ua)) db.sales (lookupHM mACT nm))) ∧
    (buildResult db ua name sATC sINF sINN sACT sORG mATC mINF mINN mACT mORG).SuggORG =
      sORG.map (fun nm => sugg.mk nm
        (sortMagic (lookupAssoc db.vault (idxORGof ua)) db.sales (lookupHM mORG nm))) ∧
    (buildResult db ua name sATC sINF sINN sACT sORG mATC mINF mINN mACT mORG).SuggATC =
      sATC.map (fun nm => sugg.mk (trimSpace (replaceBarOnce nm))
        (sortMagic (lookupAssoc db.vault (idxINNof ua)) db.sales
          ((lookupHM mATC nm).map splitBarHead))) := by
  refine ⟨rfl, ?_, rfl, rfl, rfl, rfl⟩
  show [sugg.mk "-" (sortMagic (lookupAssoc db.vault (idxINFof ua)) db.sales
      (sINF.foldl (fun acc nm => acc ++ lookupHM mINF nm) []))] = _
  rw [foldl_append_eq_join (lookupHM mINF) sINF []]
  simp

/-! ## Claim about the transliteration fallback (`selectSuggestion` search phase) -/

/-- A successful `findByName` call: the collaborator returned the map and the
call was logged. -/
theorem runFind_ok {find : Find} {k t : String} {log : QLog} {p : HitMap × QLog}
    (h : runFind find k t log = .ok p) :
    find k t = .ok p.1 ∧ p.2 = log ++ [(k, t)] := by
  unfold runFind at h
  cases hf : find k t with
  | error e => rw [hf] at h; exact Except.noConfusion h
  | ok m =>
    rw [hf] at h
    cases h
    exact ⟨rfl, rfl⟩

/-- A successful fallback block: the log grows by exactly one retry when the
direct map was empty and by nothing otherwise. -/
theorem fallbackStep_ok {find : Find} {k c : String} {m : HitMap} {log : QLog}
    {p : HitMap × QLog} (h : fallbackStep find k c m log = .ok p) :
    p.2 = log ++ (if m.isEmpty then [(k, c)] else []) ∧
    (m.isEmpty = true → find k c = .ok p.1) ∧
    (m.isEmpty = false → p.1 = m) := by
  unfold fallbackStep at h
  by_cases he : m.isEmpty = true
  · rw [if_pos he] at h
    obtain ⟨h1, h2⟩ := runFind_ok h
    exact ⟨by rw [if_pos he]; exact h2, fun _ => h1, fun hf => absurd he (by simp [hf])⟩
  · rw [if_neg he] at h
    cases h
    exact ⟨by rw [if_neg he, List.append_nil], fun ht => absurd ht he, fun _ => rfl⟩

/-- Structure of a successful search phase: all five direct searches
succeeded, and the query log is the five direct queries followed by one
transliteration retry per category whose direct map was empty. -/
theorem searchPhase_decomp {find : Find} {ua : Bool} {name : String}
    {res : catMaps} {log : QLog}
    (h : selectSuggestionSearch find ua name = .ok (res, log)) :
    ∃ mA mI mN mC mO : HitMap,
      find (idxATCof ua) name = .ok mA ∧
      find (idxINFof ua) name = .ok mI ∧
      find (idxINNof ua) name = .ok mN ∧
      find (idxACTof ua) name = .ok mC ∧
      find (idxORGof ua) name = .ok mO ∧
      log = [(idxATCof ua, name), (idxINFof ua, name), (idxINNof ua, name),
             (idxACTof ua, name), (idxORGof ua, name)]
        ++ (if mA.isEmpty then [(idxATCof ua, convNameOf ua name)] else [])
        ++ (if mI.isEmpty then [(idxINFof ua, convNameOf ua name)] else [])
        ++ (if mN.isEmpty then [(idxINNof ua, convNameOf ua name)] else [])
        ++ (if mC.isEmpty then [(idxACTof ua, convNameOf ua name)] else [])
        ++ (if mO.isEmpty then [(idxORGof ua, convNameOf ua name)] else []) := by
  unfold selectSuggestionSearch at h
  split at h
  next e heq => exact Except.noConfusion h
  next mA l1 heqA =>
  obtain ⟨hfA, hlA⟩ := runFind_ok heqA
  split at h
  next e heq => exact Except.noConfusion h
  next mI l2 heqI =>
  obtain ⟨hfI, hlI⟩ := runFind_ok heqI
  split at h
  next e heq => exact Except.noConfusion h
  next mN l3 heqN =>
  obtain ⟨hfN, hlN⟩ := runFind_ok heqN
  split at h
  next e heq => exact Except.noConfusion h
  next mC l4 heqC =>
  obtain ⟨hfC, hlC⟩ := runFind_ok heqC
  split at h
  next e heq => exact Except.noConfusion h
  next mO l5 heqO =>
  obtain ⟨hfO, hlO⟩ := runFind_ok heqO
  split at h
  next e heq => exact Except.noConfusion h
  next mA2 l6 heqFA =>
  obtain ⟨hl6, _, _⟩ := fallbackStep_ok heqFA
  split at h
  next e heq => exact Except.noConfusion h
  next mI2 l7 heqFI =>
  obtain ⟨hl7, _, _⟩ := fallbackStep_ok heqFI
  split at h
  next e heq => exact Except.noConfusion h
  next mN2 l8 heqFN =>
  obtain ⟨hl8, _, _⟩ := fallbackStep_ok heqFN
  split at h
  next e heq => exact Except.noConfusion h
  next mC2 l9 heqFC =>
  obtain ⟨hl9, _, _⟩ := fallbackStep_ok heqFC
  split at h
  next e heq => exact Except.noConfusion h
  next mO2 l10 heqFO =>
  obtain ⟨hl10, _, _⟩ := fallbackStep_ok heqFO
  have hpair := Except.ok.inj h
  injection hpair with hres hlg
  refine ⟨mA, mI, mN, mC, mO, hfA, hfI, hfN, hfC, hfO, ?_⟩
  subst hlg
  simp only at hlA hlI hlN hlC hlO hl6 hl7 hl8 hl9 hl10
  subst hlA hlI hlN hlC hlO hl6 hl7 hl8 hl9
  rw [hl10]
  simp [List.append_assoc]

/-- Filtering for one partition's queries ignores another partition's
conditional retry. -/
theorem filter_ite_single {c : Prop} [Decidable c] {k k' t : String}
    (hne : (k' == k) = false) :
    List.filter (fun p => (p : String × String).1 == k)
      (if c then [(k', t)] else []) = [] := by
  split <;> simp [hne]

/-- Claim C4: in a successful resolution, each of the five categories whose
direct search returned zero hits is queried exactly twice against its own
partition — the direct text then the transliterated text — and each category
whose direct search returned at least one hit is queried exactly once; the
retry decision for a category is a function of that category's direct result
alone. -/
theorem selectSuggestion_translit_fallback (find : Find) (ua : Bool) (name : String)
    (res : catMaps) (log : QLog)
    (h : selectSuggestionSearch find ua name = .ok (res, log)) :
    ∀ k ∈ [idxATCof ua, idxINFof ua, idxINNof ua, idxACTof ua, idxORGof ua],
      (find k name = .ok [] →
        log.filter (fun p => p.1 == k) = [(k, name), (k, convNameOf ua name)]) ∧
      (∀ m, find k name = .ok m → m ≠ [] →
        log.filter (fun p => p.1 == k) = [(k, name)]) := by
  obtain ⟨mA, mI, mN, mC, mO, hfA, hfI, hfN, hfC, hfO, hlog⟩ := searchPhase_decomp h
  subst hlog
  intro k hk
  simp only [List.mem_cons, List.not_mem_nil, or_false] at hk
  rcases hk with rfl | rfl | rfl | rfl | rfl
  · have s0 : (idxATCof ua == idxATCof ua) = true := by cases ua <;> decide
    have n1 : (idxINFof ua == idxATCof ua) = false := by cases ua <;> decide
    have n2 : (idxINNof ua == idxATCof ua) = false := by cases ua <;> decide
    have n3 : (idxACTof ua == idxATCof ua) = false := by cases ua <;> decide
    have n4 : (idxORGof ua == idxATCof ua) = false := by cases ua <;> decide
    constructor
    · intro hdir
      have hm : mA = [] := Except.ok.inj (hfA.symm.trans hdir)
      subst hm
      simp [List.filter_append, List.filter_cons, s0, n1, n2, n3, n4,
        filter_ite_single n1, filter_ite_single n2, filter_ite_single n3,
        filter_ite_single n4]
    · intro m hdir hne
      have hm : mA = m := Except.ok.inj (hfA.symm.trans hdir)
      subst hm
      have hemp : mA.isEmpty = false := by
        cases mA
        · exact absurd rfl hne
        · rfl
      simp [List.filter_append, List.filter_cons, s0, n1, n2, n3, n4, hemp,
        filter_ite_single n1, filter_ite_single n2, filter_ite_single n3,
        filter_ite_single n4]
  · have s0 : (idxINFof ua == idxINFof ua) = true := by cases ua <;> decide
    have n1 : (idxATCof ua == idxINFof ua) = false := by cases ua <;> decide
    have n2 : (idxINNof ua == idxINFof ua) = false := by cases ua <;> decide
    have n3 : (idxACTof ua == idxINFof ua) = false := by cases ua <;> decide
    have n4 : (idxORGof ua == idxINFof ua) = false := by cases ua <;> decide
    constructor
    · intro hdir
      have hm : mI = [] := Except.ok.inj (hfI.symm.trans hdir)
      subst hm
      simp [List.filter_append, List.filter_cons, s0, n1, n2, n3, n4,
        filter_ite_single n1, filter_ite_single n2, filter_ite_single n3,
        filter_ite_single n4]
    · intro m hdir hne
      have hm : mI = m := Except.ok.inj (hfI.symm.trans hdir)
      subst hm
      have hemp : mI.isEmpty = false := by
        cases mI
        · exact absurd rfl hne
        · rfl
      simp [List.filter_append, List.filter_cons, s0, n1, n2, n3, n4, hemp,
        filter_ite_single n1, filter_ite_single n2, filter_ite_single n3,
        filter_ite_single n4]
  · have s0 : (idxINNof ua == idxINNof ua) = true := by cases ua <;> decide
    have n1 : (idxATCof ua == idxINNof ua) = false := by cases ua <;> decide
    have n2 : (idxINFof ua == idxINNof ua) = false := by cases ua <;> decide
    have n3 : (idxACTof ua == idxINNof ua) = false := by cases ua <;> decide
    have n4 : (idxORGof ua == idxINNof ua) = false := by cases ua <;> decide
    constructor
    · intro hdir
      have hm : mN = [] := Except.ok.inj (hfN.symm.trans hdir)
      subst hm
      simp [List.filter_append, List.filter_cons, s0, n1, n2, n3, n4,
        filter_ite_single n1, filter_ite_single n2, filter_ite_single n3,
        filter_ite_single n4]
    · intro m hdir hne
      have hm : mN = m := Except.ok.inj (hfN.symm.trans hdir)
      subst hm
      have hemp : mN.isEmpty = false := by
        cases mN
        · exact absurd rfl hne
        · rfl
      simp [List.filter_append, List.filter_cons, s0, n1, n2, n3, n4, hemp,
        filter_ite_single n1, filter_ite_single n2, filter_ite_single n3,
        filter_ite_single n4]
  · have s0 : (idxACTof ua == idxACTof ua) = true := by cases ua <;> decide
    have n1 : (idxATCof ua == idxACTof ua) = false := by cases ua <;> decide
    have n2 : (idxINFof ua == idxACTof ua) = false := by cases ua <;> decide
    have n3 : (idxINNof ua == idxACTof ua) = false := by cases ua <;> decide
    have n4 : (idxORGof ua == idxACTof ua) = false := by cases ua <;> decide
    constructor
    · intro hdir
      have hm : mC = [] := Except.ok.inj (hfC.symm.trans hdir)
      subst hm
      simp [List.filter_append, List.filter_cons, s0, n1, n2, n3, n4,
        filter_ite_single n1, filter_ite_single n2, filter_ite_single n3,
        filter_ite_single n4]
    · intro m hdir hne
      have hm : mC = m := Except.ok.inj (hfC.symm.trans hdir)
      subst hm
      have hemp : mC.isEmpty = false := by
        cases mC
        · exact absurd rfl hne
        · rfl
      simp [List.filter_append, List.filter_cons, s0, n1, n2, n3, n4, hemp,
        filter_ite_single n1, filter_ite_single n2, filter_ite_single n3,
        filter_ite_single n4]
  · have s0 : (idxORGof ua == idxORGof ua) = true := by cases ua <;> decide
    have n1 : (idxATCof ua == idxORGof ua) = false := by cases ua <;> decide
    have n2 : (idxINFof ua == idxORGof ua) = false := by cases ua <;> decide
    have n3 : (idxINNof ua == idxORGof ua) = false := by cases ua <;> decide
    have n4 : (idxACTof ua == idxORGof ua) = false := by cases ua <;> decide
    constructor
    · intro hdir
      have hm : mO = [] := Except.ok.inj (hfO.symm.trans hdir)
      subst hm
      simp [List.filter_append, List.filter_cons, s0, n1, n2, n3, n4,
        filter_ite_single n1, filter_ite_single n2, filter_ite_single n3,
        filter_ite_single n4]
    · intro m hdir hne
      have hm : mO = m := Except.ok.inj (hfO.symm.trans hdir)
      subst hm
      have hemp : mO.isEmpty = false := by
        cases mO
        · exact absurd rfl hne
        · rfl
      simp [List.filter_append, List.filter_cons, s0, n1, n2, n3, n4, hemp,
        filter_ite_single n1, filter_ite_single n2, filter_ite_single n3,
        filter_ite_single n4]

/-- Witness for C4: a run in which the `atc` category alone has zero direct
hits — its partition is queried exactly twice (direct text then
transliterated text), as the theorem's first branch states. -/
theorem selectSuggestion_translit_fallback_witness :
    List.filter (fun p => (p : String × String).1 == "atc-ru")
      [("atc-ru", "abc"), ("inf-ru", "abc"), ("inn-ru", "abc"), ("act-ru", "abc"),
       ("org-ru", "abc"), ("atc-ru", convNameOf false "abc")] =
      [("atc-ru", "abc"), ("atc-ru", convNameOf false "abc")] :=
  (selectSuggestion_translit_fallback
    (fun k _ => if k = "atc-ru" then .ok [] else .ok [("h", ["k1"])])
    false "abc" ⟨[], [("h", ["k1"])], [("h", ["k1"])], [("h", ["k1"])], [("h", ["k1"])]⟩
    [("atc-ru", "abc"), ("inf-ru", "abc"), ("inn-ru", "abc"), ("act-ru", "abc"),
     ("org-ru", "abc"), ("atc-ru", convNameOf false "abc")]
    rfl "atc-ru" (by decide)).1 rfl

end TestBleve
